import Mathlib

/-!
Verification of the brightwind analysis module (`brightwind/analyse/analyse.py`)
against its natural-language specification.

The Python functions are shallowly embedded over exact rational arithmetic
(`ℚ` stands for the Python/numpy floating point values; all quantities of
interest here — bin edges, direction angles, monthly means — are defined by
exact formulas, so ℚ is a faithful model of the intended real-number
behaviour).  Pandas/numpy collaborators are embedded at the granularity the
source uses them:

* `np.arange(start, stop, step)` (positive step) produces the
  `⌈(stop-start)/step⌉` values `start + i*step`;
* `np.digitize(x, bins, right)` for monotonically increasing `bins` returns
  the number of bin edges `e` with `e ≤ x` (`right=False`) resp. `e < x`
  (`right=True`); every call site in the source passes increasing bins;
* a pandas scalar cell is `Option ℚ` with `none` playing the role of `NaN`;
* a Python exception (IndexError / ValueError / TypeError) is `none` /
  `Except.error`.
-/

/-- Embeds `np.arange start stop step` (positive `step`): it has `⌈(stop-start)/step⌉`
elements (`0` when the quotient is nonpositive). -/
def arangeLen (start stop step : ℚ) : ℕ :=
  (Int.ceil ((stop - start) / step)).toNat

/-- Embeds `np.arange start stop step`: the values `start + i*step` for
`i < arangeLen start stop step`. -/
def arange (start stop step : ℚ) : List ℚ :=
  (List.range (arangeLen start stop step)).map (fun i : ℕ => start + (i : ℚ) * step)

/-- Embeds `get_direction_bin_array(sectors)` from `analyse.py`:
`bin_start = 180.0/sectors`; `np.arange(bin_start, 360, 360.0/sectors)`;
then `0` is inserted at the front and `360` appended at the back. -/
def get_direction_bin_array (sectors : ℕ) : List ℚ :=
  (0 : ℚ) :: (arange (180 / (sectors : ℚ)) 360 (360 / (sectors : ℚ)) ++ [360])

/-- Embeds `np.digitize(x, bins, right)` for monotonically increasing `bins`,
expressed as an edge count (see the header comment). -/
def digitize (x : ℚ) (bins : List ℚ) (right : Bool) : ℕ :=
  if right then (bins.filter (fun e => e < x)).length
  else (bins.filter (fun e => e ≤ x)).length

/-- Python's `max` over a list (the call sites only use nonempty lists;
on `[]` Python raises, the default value here is never relevant). -/
def pymax (l : List ℚ) : ℚ := l.foldl max (l.headD 0)

/-- Embeds `map_direction_bin(wdir, bins, sectors)` from `analyse.py`:
`right=True` exactly when `wdir == max(bins)`, then one `np.digitize` call,
and a bin number of `sectors+1` is wrapped back to `1`. -/
def map_direction_bin (wdir : ℚ) (bins : List ℚ) (sectors : ℕ) : ℕ :=
  let bin_num := if wdir = pymax bins then digitize wdir bins true
                 else digitize wdir bins false
  if bin_num = sectors + 1 then 1 else bin_num

-- ### helper lemmas about the embedded numpy primitives

lemma arangeLen_direction (s : ℕ) (hs : 1 ≤ s) :
    arangeLen (180 / (s : ℚ)) 360 (360 / (s : ℚ)) = s := by
  have hs0 : (s : ℚ) ≠ 0 := Nat.cast_ne_zero.mpr (by omega)
  have key : ((360 : ℚ) - 180 / s) / (360 / s) = (s : ℚ) - 1 / 2 := by
    field_simp
    ring
  have hceil : Int.ceil ((s : ℚ) - 1 / 2) = (s : ℤ) := by
    rw [Int.ceil_eq_iff]
    constructor
    · push_cast
      linarith
    · push_cast
      linarith
  unfold arangeLen
  rw [key, hceil]
  exact Int.toNat_natCast s

lemma length_get_direction_bin_array (s : ℕ) (hs : 1 ≤ s) :
    (get_direction_bin_array s).length = s + 2 := by
  simp [get_direction_bin_array, arange, arangeLen_direction s hs]

lemma getElem?_get_direction_bin_array (s : ℕ) (hs : 1 ≤ s) (i : ℕ) (hi : i < s) :
    (get_direction_bin_array s)[i + 1]? =
      some (180 / (s : ℚ) + i * (360 / (s : ℚ))) := by
  simp only [get_direction_bin_array, arange, arangeLen_direction s hs,
    List.getElem?_cons_succ]
  rw [List.getElem?_append_left (by simpa using hi), List.getElem?_map,
    List.getElem?_range hi]
  rfl

/-- C1: the bin-edge computation.  The claim's edge values are right (0 is
prepended, the first proper edge is `180/sectors`, the following ones step by
`360/sectors`, and `360` is appended last) but the count is `sectors + 2`,
not `sectors + 1`: `np.arange` alone already yields `sectors` values, and the
prepended `0` and appended `360` add two more. -/
theorem C1_bin_edges_structure (s : ℕ) (hs : 1 ≤ s) :
    (get_direction_bin_array s).length = s + 2 ∧
    (get_direction_bin_array s)[0]? = some 0 ∧
    (get_direction_bin_array s)[1]? = some (180 / (s : ℚ)) ∧
    (∀ i : ℕ, i < s → (get_direction_bin_array s)[i + 1]? =
      some (180 / (s : ℚ) + (i : ℚ) * (360 / (s : ℚ)))) ∧
    (get_direction_bin_array s).getLast? = some 360 := by
  refine ⟨length_get_direction_bin_array s hs, by simp [get_direction_bin_array],
    ?_, ?_, ?_⟩
  · have h := getElem?_get_direction_bin_array s hs 0 (by omega)
    simpa using h
  · exact fun i hi => getElem?_get_direction_bin_array s hs i hi
  · show ((((0 : ℚ) :: arange (180 / (s : ℚ)) 360 (360 / (s : ℚ))) ++ [(360 : ℚ)])).getLast? =
      some (360 : ℚ)
    exact List.getLast?_concat _

/-- C1 witness: the structure theorem instantiated at `sectors = 12`. -/
theorem C1_bin_edges_structure_witness :
    (get_direction_bin_array 12).length = 12 + 2 ∧
    (get_direction_bin_array 12)[0]? = some 0 ∧
    (get_direction_bin_array 12)[1]? = some (180 / ((12 : ℕ) : ℚ)) ∧
    (∀ i : ℕ, i < 12 → (get_direction_bin_array 12)[i + 1]? =
      some (180 / ((12 : ℕ) : ℚ) + (i : ℚ) * (360 / ((12 : ℕ) : ℚ)))) ∧
    (get_direction_bin_array 12).getLast? = some 360 :=
  C1_bin_edges_structure 12 (by norm_num)

/-- C1 counterexample: at `sectors = 12` the function returns `14` boundary
values, not `sectors + 1 = 13` as the claim states. -/
theorem C1_count_counterexample :
    (get_direction_bin_array 12).length ≠ 12 + 1 := by
  rw [length_get_direction_bin_array 12 (by norm_num)]
  omega

-- ### facts about `pymax` (Python `max`) and `digitize` on the default edges

lemma foldl_max_init_le (l : List ℚ) : ∀ a : ℚ, a ≤ l.foldl max a := by
  induction l with
  | nil => intro a; simp
  | cons x xs ih =>
    intro a
    calc a ≤ max a x := le_max_left a x
    _ ≤ xs.foldl max (max a x) := ih (max a x)

lemma le_foldl_max_of_mem (l : List ℚ) : ∀ a x : ℚ, x ∈ l → x ≤ l.foldl max a := by
  induction l with
  | nil => intro a x hx; simp at hx
  | cons y ys ih =>
    intro a x hx
    rcases List.mem_cons.mp hx with h | h
    · subst h
      calc x ≤ max a x := le_max_right a x
      _ ≤ ys.foldl max (max a x) := foldl_max_init_le ys (max a x)
    · exact ih (max a y) x h

lemma foldl_max_le_bound (l : List ℚ) :
    ∀ a M : ℚ, a ≤ M → (∀ x ∈ l, x ≤ M) → l.foldl max a ≤ M := by
  induction l with
  | nil => intro a M ha _; simpa using ha
  | cons y ys ih =>
    intro a M ha hall
    exact ih (max a y) M (max_le ha (hall y (List.mem_cons_self y ys)))
      fun x hx => hall x (List.mem_cons_of_mem y hx)

lemma mem_arange_direction (s : ℕ) (hs : 1 ≤ s) (x : ℚ)
    (hx : x ∈ arange (180 / (s : ℚ)) 360 (360 / (s : ℚ))) :
    ∃ i : ℕ, i < s ∧ x = 180 / (s : ℚ) + (i : ℚ) * (360 / (s : ℚ)) := by
  simp only [arange, arangeLen_direction s hs, List.mem_map, List.mem_range] at hx
  obtain ⟨i, hi, rfl⟩ := hx
  exact ⟨i, hi, rfl⟩

lemma arange_direction_pos (s : ℕ) (hs : 1 ≤ s) (x : ℚ)
    (hx : x ∈ arange (180 / (s : ℚ)) 360 (360 / (s : ℚ))) : 0 < x := by
  obtain ⟨i, _, rfl⟩ := mem_arange_direction s hs x hx
  have hsq : (0 : ℚ) < (s : ℚ) := by exact_mod_cast hs
  have h1 : (0 : ℚ) < 180 / (s : ℚ) := by positivity
  have h2 : (0 : ℚ) ≤ (i : ℚ) * (360 / (s : ℚ)) := by positivity
  linarith

lemma arange_direction_lt_360 (s : ℕ) (hs : 1 ≤ s) (x : ℚ)
    (hx : x ∈ arange (180 / (s : ℚ)) 360 (360 / (s : ℚ))) : x < 360 := by
  obtain ⟨i, hi, rfl⟩ := mem_arange_direction s hs x hx
  have hsq : (0 : ℚ) < (s : ℚ) := by exact_mod_cast hs
  have hiq : (i : ℚ) ≤ (s : ℚ) - 1 := by
    have : (i : ℚ) + 1 ≤ (s : ℚ) := by exact_mod_cast hi
    linarith
  have hstep : (0 : ℚ) < 360 / (s : ℚ) := by positivity
  have : 180 / (s : ℚ) + (i : ℚ) * (360 / (s : ℚ)) ≤
      180 / (s : ℚ) + ((s : ℚ) - 1) * (360 / (s : ℚ)) := by
    have := mul_le_mul_of_nonneg_right hiq (le_of_lt hstep)
    linarith
  have hval : 180 / (s : ℚ) + ((s : ℚ) - 1) * (360 / (s : ℚ)) = 360 - 180 / (s : ℚ) := by
    field_simp
    ring
  have h180 : (0 : ℚ) < 180 / (s : ℚ) := by positivity
  linarith [hval ▸ this]

lemma pymax_direction_bins (s : ℕ) (hs : 1 ≤ s) :
    pymax (get_direction_bin_array s) = 360 := by
  unfold pymax get_direction_bin_array
  apply le_antisymm
  · apply foldl_max_le_bound
    · norm_num
    · intro x hx
      rcases List.mem_cons.mp hx with h | h
      · simp [h]
      · rcases List.mem_append.mp h with h' | h'
        · exact le_of_lt (arange_direction_lt_360 s hs x h')
        · simp at h'
          simp [h']
  · apply le_foldl_max_of_mem
    simp

lemma digitize_default_split (s : ℕ) (d : ℚ) :
    digitize d (get_direction_bin_array s) false =
      (List.filter (fun e => decide (e ≤ d)) [(0 : ℚ)]).length +
      (List.filter (fun e => decide (e ≤ d))
        (arange (180 / (s : ℚ)) 360 (360 / (s : ℚ)))).length +
      (List.filter (fun e => decide (e ≤ d)) [(360 : ℚ)]).length := by
  show (List.filter (fun e => decide (e ≤ d))
    ([(0 : ℚ)] ++ (arange (180 / (s : ℚ)) 360 (360 / (s : ℚ)) ++ [(360 : ℚ)]))).length = _
  simp only [List.filter_append, List.length_append]
  omega

lemma digitize_default_split_strict (s : ℕ) (d : ℚ) :
    digitize d (get_direction_bin_array s) true =
      (List.filter (fun e => decide (e < d)) [(0 : ℚ)]).length +
      (List.filter (fun e => decide (e < d))
        (arange (180 / (s : ℚ)) 360 (360 / (s : ℚ)))).length +
      (List.filter (fun e => decide (e < d)) [(360 : ℚ)]).length := by
  show (List.filter (fun e => decide (e < d))
    ([(0 : ℚ)] ++ (arange (180 / (s : ℚ)) 360 (360 / (s : ℚ)) ++ [(360 : ℚ)]))).length = _
  simp only [List.filter_append, List.length_append]
  omega

lemma digitize_default_lower (s : ℕ) (d : ℚ) (h0 : 0 ≤ d) :
    1 ≤ digitize d (get_direction_bin_array s) false := by
  rw [digitize_default_split]
  have : (List.filter (fun e => decide (e ≤ d)) [(0 : ℚ)]).length = 1 := by
    simp [List.filter, h0]
  omega

lemma digitize_default_upper (s : ℕ) (hs : 1 ≤ s) (d : ℚ) (h1 : d < 360) :
    digitize d (get_direction_bin_array s) false ≤ s + 1 := by
  rw [digitize_default_split]
  have hfirst : (List.filter (fun e => decide (e ≤ d)) [(0 : ℚ)]).length ≤ 1 := by
    simpa using List.length_filter_le (fun e => decide (e ≤ d)) [(0 : ℚ)]
  have hlast : (List.filter (fun e => decide (e ≤ d)) [(360 : ℚ)]).length = 0 := by
    simp [List.filter, not_le.mpr h1]
  have hmid : (List.filter (fun e => decide (e ≤ d))
      (arange (180 / (s : ℚ)) 360 (360 / (s : ℚ)))).length ≤ s := by
    calc (List.filter (fun e => decide (e ≤ d))
        (arange (180 / (s : ℚ)) 360 (360 / (s : ℚ)))).length
        ≤ (arange (180 / (s : ℚ)) 360 (360 / (s : ℚ))).length :=
          List.length_filter_le _ _
      _ = s := by simp [arange, arangeLen_direction s hs]
  omega

lemma map_direction_bin_zero (s : ℕ) (hs : 1 ≤ s) :
    map_direction_bin 0 (get_direction_bin_array s) s = 1 := by
  have hne : (0 : ℚ) ≠ pymax (get_direction_bin_array s) := by
    rw [pymax_direction_bins s hs]
    norm_num
  have hdig : digitize 0 (get_direction_bin_array s) false = 1 := by
    rw [digitize_default_split]
    have hfirst : (List.filter (fun e => decide (e ≤ (0 : ℚ))) [(0 : ℚ)]).length = 1 := by
      decide
    have hmid : (List.filter (fun e => decide (e ≤ (0 : ℚ)))
        (arange (180 / (s : ℚ)) 360 (360 / (s : ℚ)))).length = 0 := by
      rw [List.length_eq_zero, List.filter_eq_nil_iff]
      intro x hx
      simpa using not_le.mpr (arange_direction_pos s hs x hx)
    have hlast : (List.filter (fun e => decide (e ≤ (0 : ℚ))) [(360 : ℚ)]).length = 0 := by
      decide
    omega
  simp only [map_direction_bin]
  rw [if_neg hne, hdig, if_neg (by omega)]

lemma map_direction_bin_360 (s : ℕ) (hs : 1 ≤ s) :
    map_direction_bin 360 (get_direction_bin_array s) s = 1 := by
  have heq : (360 : ℚ) = pymax (get_direction_bin_array s) :=
    (pymax_direction_bins s hs).symm
  have hdig : digitize 360 (get_direction_bin_array s) true = s + 1 := by
    rw [digitize_default_split_strict]
    have hfirst : (List.filter (fun e => decide (e < (360 : ℚ))) [(0 : ℚ)]).length = 1 := by
      decide
    have hmid : (List.filter (fun e => decide (e < (360 : ℚ)))
        (arange (180 / (s : ℚ)) 360 (360 / (s : ℚ)))).length = s := by
      rw [List.filter_eq_self.mpr]
      · simp [arange, arangeLen_direction s hs]
      · intro x hx
        simpa using arange_direction_lt_360 s hs x hx
    have hlast : (List.filter (fun e => decide (e < (360 : ℚ))) [(360 : ℚ)]).length = 0 := by
      decide
    omega
  simp only [map_direction_bin]
  rw [if_pos heq, hdig, if_pos rfl]

/-- C2: with the default zero-centred edges, the sector id is total on
`[0, 360)` — always in `[1, sectors]` — and `0` and `360` both land in the
wraparound first sector. -/
theorem C2_map_direction_total_and_wrap (s : ℕ) (hs : 1 ≤ s)
    (d : ℚ) (h0 : 0 ≤ d) (h1 : d < 360) :
    1 ≤ map_direction_bin d (get_direction_bin_array s) s ∧
    map_direction_bin d (get_direction_bin_array s) s ≤ s ∧
    map_direction_bin 0 (get_direction_bin_array s) s =
      map_direction_bin 360 (get_direction_bin_array s) s ∧
    map_direction_bin 0 (get_direction_bin_array s) s = 1 := by
  have hz := map_direction_bin_zero s hs
  have hw := map_direction_bin_360 s hs
  refine ⟨?_, ?_, by rw [hz, hw], hz⟩ <;>
  · have hne : d ≠ pymax (get_direction_bin_array s) := by
      rw [pymax_direction_bins s hs]
      exact ne_of_lt h1
    have hlow := digitize_default_lower s d h0
    have hhigh := digitize_default_upper s hs d h1
    simp only [map_direction_bin]
    rw [if_neg hne]
    split <;> omega

/-- C2 witness: the totality/wraparound theorem at `sectors = 12`, `d = 45`. -/
theorem C2_map_direction_total_and_wrap_witness :
    1 ≤ map_direction_bin 45 (get_direction_bin_array 12) 12 ∧
    map_direction_bin 45 (get_direction_bin_array 12) 12 ≤ 12 ∧
    map_direction_bin 0 (get_direction_bin_array 12) 12 =
      map_direction_bin 360 (get_direction_bin_array 12) 12 ∧
    map_direction_bin 0 (get_direction_bin_array 12) 12 = 1 :=
  C2_map_direction_total_and_wrap 12 (by norm_num) 45 (by norm_num) (by norm_num)

-- ### sector labels (`_get_direction_bin_labels`)

/-- Python negative-capable list indexing `l[-k]` (for `k > 0`):
`none` models the IndexError raised when the list is shorter than `k`. -/
def pyGetNeg (l : List ℚ) (k : ℕ) : Option ℚ :=
  if k ≤ l.length then l[l.length - k]? else none

/-- One entry of the label mapper built by `_get_direction_bin_labels`:
for `i = 0` with `zero_centred` the pair is `(bins[-2], bins[1])`, otherwise
`(bins[i], bins[i+1])`.  The Python code formats the pair as the string
`"{lower}-{upper}"`; the embedding keeps the two numeric bounds.
`none` models the IndexError when an index is out of range. -/
def labelOf (bins : List ℚ) (zero_centred : Bool) (i : ℕ) : Option (ℚ × ℚ) :=
  if i = 0 ∧ zero_centred then
    match pyGetNeg bins 2, bins[1]? with
    | some lo, some hi => some (lo, hi)
    | _, _ => none
  else
    match bins[i]?, bins[i + 1]? with
    | some lo, some hi => some (lo, hi)
    | _, _ => none

/-- Sequencing of a list of optional values: `none` as soon as one entry is
`none` (a raised exception aborts the whole loop). -/
def sequenceOption {α : Type} : List (Option α) → Option (List α)
  | [] => some []
  | none :: _ => none
  | some a :: rest => (sequenceOption rest).map (fun l => a :: l)

/-- Embeds `_get_direction_bin_labels(sectors, direction_bins, zero_centred)` from
`analyse.py`: iterates over `direction_bins[:sectors]` (hence
`min sectors bins.length` entries) building the mapper entries in order. -/
def _get_direction_bin_labels (sectors : ℕ) (direction_bins : List ℚ)
    (zero_centred : Bool) : Option (List (ℚ × ℚ)) :=
  sequenceOption ((List.range (min sectors direction_bins.length)).map
    (labelOf direction_bins zero_centred))

lemma sequenceOption_map_eq {α β : Type} (l : List α) (f : α → Option β) (g : α → β)
    (h : ∀ a ∈ l, f a = some (g a)) :
    sequenceOption (l.map f) = some (l.map g) := by
  induction l with
  | nil => rfl
  | cons x xs ih =>
    have hx := h x (List.mem_cons_self x xs)
    simp only [List.map_cons, hx, sequenceOption]
    rw [ih fun a ha => h a (List.mem_cons_of_mem x ha)]
    rfl

/-- C8 (amended): when the edge sequence has at least `sectors + 1` entries —
which every in-repo call guarantees — the label computation succeeds and
produces exactly `sectors` labels: the first is `(bins[-2], bins[1])` when
zero-centred, and label `i` (0-based) is `(bins[i], bins[i+1])` otherwise.
On shorter edge sequences the Python code raises IndexError instead (see the
counterexample), so the claim's "every edge sequence" needs this bound. -/
theorem C8_direction_bin_labels (sectors : ℕ) (hs : 1 ≤ sectors)
    (bins : List ℚ) (zc : Bool) (hlen : sectors + 1 ≤ bins.length) :
    ∃ labels, _get_direction_bin_labels sectors bins zc = some labels ∧
      labels.length = sectors ∧
      (zc = true → labels[0]? =
        some (bins.getD (bins.length - 2) 0, bins.getD 1 0)) ∧
      (∀ i : ℕ, i < sectors → (i = 0 → zc = false) →
        labels[i]? = some (bins.getD i 0, bins.getD (i + 1) 0)) := by
  have hmin : min sectors bins.length = sectors := by omega
  have hgd : ∀ j : ℕ, j < bins.length → bins[j]? = some (bins.getD j 0) := by
    intro j hj
    rw [List.getD_eq_getElem?_getD, List.getElem?_eq_getElem hj]
    rfl
  have hval : ∀ i ∈ List.range (min sectors bins.length),
      labelOf bins zc i = some (if i = 0 ∧ zc then
        (bins.getD (bins.length - 2) 0, bins.getD 1 0)
      else (bins.getD i 0, bins.getD (i + 1) 0)) := by
    intro i hi
    rw [List.mem_range, hmin] at hi
    by_cases h0 : i = 0 ∧ zc = true
    · obtain ⟨rfl, hzc⟩ := h0
      subst hzc
      have h2 : 2 ≤ bins.length := by omega
      have e1 := hgd (bins.length - 2) (by omega)
      have e2 := hgd 1 (by omega)
      have lhs : labelOf bins true 0 =
          some (bins.getD (bins.length - 2) 0, bins.getD 1 0) := by
        unfold labelOf pyGetNeg
        rw [if_pos (show (0 : ℕ) = 0 ∧ (true : Bool) = true from ⟨rfl, rfl⟩),
          if_pos h2, e1, e2]
      rw [lhs, if_pos (show (0 : ℕ) = 0 ∧ (true : Bool) = true from ⟨rfl, rfl⟩)]
    · have e1 := hgd i (by omega)
      have e2 := hgd (i + 1) (by omega)
      have lhs : labelOf bins zc i = some (bins.getD i 0, bins.getD (i + 1) 0) := by
        unfold labelOf
        rw [if_neg h0, e1, e2]
      rw [lhs, if_neg h0]
  refine ⟨(List.range (min sectors bins.length)).map (fun i => if i = 0 ∧ zc then
      (bins.getD (bins.length - 2) 0, bins.getD 1 0)
    else (bins.getD i 0, bins.getD (i + 1) 0)), ?_, ?_, ?_, ?_⟩
  · exact sequenceOption_map_eq _ _ _ hval
  · simp [hmin]
  · intro hzc
    subst hzc
    rw [List.getElem?_map, List.getElem?_range (by omega)]
    simp
  · intro i hi hizc
    rw [List.getElem?_map, List.getElem?_range (by omega)]
    simp only [Option.map_some']
    by_cases hi0 : i = 0
    · rw [hizc hi0]
      simp [hi0]
    · simp [hi0]

/-- C8 witness: four sectors, the custom (non-zero-centred) edge array
`[0, 90, 180, 270, 360]` of length `4 + 1`. -/
theorem C8_direction_bin_labels_witness :
    ∃ labels, _get_direction_bin_labels 4 [0, 90, 180, 270, 360] false = some labels ∧
      labels.length = 4 ∧
      (false = true → labels[0]? =
        some (([0, 90, 180, 270, 360] : List ℚ).getD (([0, 90, 180, 270, 360] : List ℚ).length - 2) 0,
          ([0, 90, 180, 270, 360] : List ℚ).getD 1 0)) ∧
      (∀ i : ℕ, i < 4 → (i = 0 → false = false) →
        labels[i]? = some (([0, 90, 180, 270, 360] : List ℚ).getD i 0,
          ([0, 90, 180, 270, 360] : List ℚ).getD (i + 1) 0)) :=
  C8_direction_bin_labels 4 (by norm_num) [0, 90, 180, 270, 360] false (by norm_num)

/-- C8 counterexample: `sectors = 2` with the two-entry edge sequence
`[0, 360]` makes the Python loop access `direction_bins[2]`, an IndexError —
it does not produce "exactly `sectors` labels" for every edge sequence. -/
theorem C8_short_edges_counterexample :
    _get_direction_bin_labels 2 [0, 360] true = none := by
  decide

-- ### SpeedSort synthesis (spec §4.4; the SpeedSort class itself is not in src/)

/-- Per-sector fitted state of SpeedSort's `SectorSpeedModel`: slope/offset of
the sector's linear fit, the reference `cutoff` speed and the corresponding
synthesized `target_cutoff`. -/
structure SectorSpeedModel where
  slope : ℚ
  offset : ℚ
  cutoff : ℚ
  target_cutoff : ℚ

/-- Modelled from the spec: the per-point synthesis rule of SpeedSort's
`synthesize` (spec §4.4 step 5) — the `Correl.SpeedSort` class is not under
`src/`, only its tests are.  Per the spec: if `input_spd` is 0 the output is
exactly 0; below the sector's cutoff a blended/clipped value is used (the
spec does not fix the formula; it is modelled here as the linear
interpolation from 0 to the sector's target cutoff); otherwise the sector's
linear model `slope*spd + offset` applies. -/
def speedsort_synth_point (m : SectorSpeedModel) (input_spd : ℚ) : ℚ :=
  if input_spd = 0 then 0
  else if input_spd < m.cutoff then m.target_cutoff * (input_spd / m.cutoff)
  else m.slope * input_spd + m.offset

/-- Modelled from the spec: SpeedSort's `synthesize(input_spd, input_dir)` —
each (speed, direction) point is dispatched to the direction sector given by
the circular binner (§4.1) and that sector's model is applied pointwise. -/
def speedsort_synthesize (models : ℕ → SectorSpeedModel) (bins : List ℚ)
    (sectors : ℕ) (pts : List (ℚ × ℚ)) : List ℚ :=
  pts.map (fun p => speedsort_synth_point (models (map_direction_bin p.2 bins sectors)) p.1)

/-- C3: whatever the fitted sector models, the direction value and the
sector's cutoff, a point whose input speed is exactly 0 synthesizes to
exactly 0. -/
theorem C3_synthesize_zero_speed (models : ℕ → SectorSpeedModel) (bins : List ℚ)
    (sectors : ℕ) (pts : List (ℚ × ℚ)) (i : ℕ) (spd dir : ℚ)
    (hp : pts[i]? = some (spd, dir)) (h0 : spd = 0) :
    (speedsort_synthesize models bins sectors pts)[i]? = some 0 := by
  subst h0
  unfold speedsort_synthesize
  rw [List.getElem?_map, hp]
  simp [speedsort_synth_point]

/-- C3 witness: a single point with zero speed, direction 37°, a sector model
with nonzero slope/offset and a positive cutoff. -/
theorem C3_synthesize_zero_speed_witness :
    (speedsort_synthesize (fun _ => ⟨2, 5, 3, 1⟩) [0, 90, 180, 270, 360] 4
      [((0 : ℚ), (37 : ℚ))])[0]? = some 0 :=
  C3_synthesize_zero_speed (fun _ => ⟨2, 5, 3, 1⟩) [0, 90, 180, 270, 360] 4
    [((0 : ℚ), (37 : ℚ))] 0 0 37 rfl rfl

-- ### distribution by wind sector and frequency table (custom bin arrays)

/-- The `aggregation_method` argument: the string `'%frequency'` (default)
triggers the count/len*100 branch; any other method reduces each sector's
values with a function (pandas' named reducers and user callables are all
functions of the grouped values). -/
inductive AggMethod : Type where
  | freqPercent : AggMethod
  | custom (f : List ℚ → ℚ) : AggMethod

/-- The grouped result of `data.groupby(['direction_bin'])['data']` followed
by `count/len*100` or `agg`.  Pandas emits one row per *observed* bin; the
embedding tabulates every sector `1..sectors` (the difference only matters
when a sector is empty, in which case the code's later
`result.index = direction_bin_labels` length check would raise — no claim
here depends on that case). -/
def aggregateBySector (pairs : List (ℚ × ℕ)) (sectors : ℕ) (agg : AggMethod) :
    List ℚ :=
  match agg with
  | .freqPercent => (List.range sectors).map (fun k =>
      ((pairs.filter (fun p => p.2 = k + 1)).length : ℚ) / (pairs.length : ℚ) * 100)
  | .custom f => (List.range sectors).map (fun k =>
      f ((pairs.filter (fun p => p.2 = k + 1)).map (fun p => p.1)))

/-- Embeds `get_distribution_by_wind_sector(var_series, direction_series, sectors,
aggregation_method, direction_bin_array, direction_bin_labels)` from
`analyse.py`.  `var` and `dirs` are the (already aligned, NaN-free) joined
series.  Exactly as in the source: a supplied `direction_bin_array`
redefines `sectors := len(array) - 1` and turns zero-centring off; supplied
labels short-circuit the label computation.  The result is the pair
(index labels, grouped values); `none` models a raised exception during
label computation. -/
def get_distribution_by_wind_sector (var dirs : List ℚ) (sectors : ℕ)
    (agg : AggMethod) (direction_bin_array : Option (List ℚ))
    (direction_bin_labels : Option (List (ℚ × ℚ))) :
    Option (List (ℚ × ℚ) × List ℚ) :=
  let resolved := match direction_bin_array with
    | none => (get_direction_bin_array sectors, sectors, true)
    | some arr => (arr, arr.length - 1, false)
  match resolved with
  | (bins, sectors, zero_centered) =>
    let labs := match direction_bin_labels with
      | some ls => some ls
      | none => _get_direction_bin_labels sectors bins zero_centered
    match labs with
    | none => none
    | some labels =>
      let binned := dirs.map (fun d => map_direction_bin d bins sectors)
      some (labels, aggregateBySector (var.zip binned) sectors agg)

/-- Embeds `pd.cut(x, edges, right=False)` for increasing `edges`: the 1-based bin
id when `edges[0] ≤ x < edges[-1]`, `NaN` (here `none`) outside. -/
def cutBin (edges : List ℚ) (x : ℚ) : Option ℕ :=
  let c := (edges.filter (fun e => e ≤ x)).length
  if c = 0 ∨ c = edges.length then none else some c

/-- Embeds `get_freq_table(var_series, direction_series, var_bin_array, sectors,
var_bin_labels, direction_bin_array, direction_bin_labels,
freq_as_percentage)` from `analyse.py` (variable-bin labels omitted — only
the direction columns matter to the claims).  Direction bins and labels are
resolved exactly as in `get_distribution_by_wind_sector`; variable values
are cut against `var_bin_array` with `right=False`, rows whose variable
falls outside the bins are dropped, and the crosstab matrix (row = variable
bin, column = direction sector, tabulated over all categories) counts rows,
scaled by `100/len` when `freq_as_percentage`. -/
def get_freq_table (var dirs : List ℚ) (var_bin_array : List ℚ) (sectors : ℕ)
    (direction_bin_array : Option (List ℚ))
    (direction_bin_labels : Option (List (ℚ × ℚ)))
    (freq_as_percentage : Bool) :
    Option (List (ℚ × ℚ) × List (List ℚ)) :=
  let resolved := match direction_bin_array with
    | none => (get_direction_bin_array sectors, sectors, true)
    | some arr => (arr, arr.length - 1, false)
  match resolved with
  | (bins, sectors, zero_centered) =>
    let labs := match direction_bin_labels with
      | some ls => some ls
      | none => _get_direction_bin_labels sectors bins zero_centered
    match labs with
    | none => none
    | some labels =>
      let rows := (var.zip dirs).filterMap (fun p =>
        (cutBin var_bin_array p.1).map
          (fun vb => (vb, map_direction_bin p.2 bins sectors)))
      let n := rows.length
      some (labels, (List.range (var_bin_array.length - 1)).map (fun vi =>
        (List.range sectors).map (fun sj =>
          let cnt := (rows.filter (fun r => r.1 = vi + 1 ∧ r.2 = sj + 1)).length
          if freq_as_percentage then (cnt : ℚ) / (n : ℚ) * 100 else (cnt : ℚ))))

/-- C7: supplying a custom `direction_bin_array` makes both functions ignore
the `sectors` argument entirely (it is redefined as `len(array) - 1`), and
disables zero-centring: the labels are the plain adjacent-edge labels of
`_get_direction_bin_labels … false`, and the direction binning uses
`map_direction_bin` against the supplied edges with the redefined sector
count (no wraparound first sector). -/
theorem C7_custom_bin_array_redefines_sectors (var dirs : List ℚ)
    (s s' : ℕ) (agg : AggMethod) (arr : List ℚ)
    (dbl : Option (List (ℚ × ℚ))) (vbins : List ℚ) (pct : Bool) :
    (get_distribution_by_wind_sector var dirs s agg (some arr) dbl =
      get_distribution_by_wind_sector var dirs s' agg (some arr) dbl) ∧
    (get_freq_table var dirs vbins s (some arr) dbl pct =
      get_freq_table var dirs vbins s' (some arr) dbl pct) ∧
    (∀ labels values,
      get_distribution_by_wind_sector var dirs s agg (some arr) none =
        some (labels, values) →
      _get_direction_bin_labels (arr.length - 1) arr false = some labels ∧
      values = aggregateBySector
        (var.zip (dirs.map (fun d => map_direction_bin d arr (arr.length - 1))))
        (arr.length - 1) agg) ∧
    (∀ labels matrix,
      get_freq_table var dirs vbins s (some arr) none pct =
        some (labels, matrix) →
      _get_direction_bin_labels (arr.length - 1) arr false = some labels) := by
  refine ⟨rfl, rfl, ?_, ?_⟩
  · intro labels values h
    have h' : (match _get_direction_bin_labels (arr.length - 1) arr false with
        | none => (none : Option (List (ℚ × ℚ) × List ℚ))
        | some ls => some (ls, aggregateBySector
            (var.zip (dirs.map (fun d => map_direction_bin d arr (arr.length - 1))))
            (arr.length - 1) agg)) = some (labels, values) := h
    cases hl : _get_direction_bin_labels (arr.length - 1) arr false with
    | none =>
      rw [hl] at h'
      simp at h'
    | some ls =>
      rw [hl] at h'
      simp only [Option.some.injEq, Prod.mk.injEq] at h'
      exact ⟨by rw [h'.1], h'.2.symm⟩
  · intro labels matrix h
    have h' : (match _get_direction_bin_labels (arr.length - 1) arr false with
        | none => (none : Option (List (ℚ × ℚ) × List (List ℚ)))
        | some ls => some (ls,
            (List.range (vbins.length - 1)).map (fun vi =>
              (List.range (arr.length - 1)).map (fun sj =>
                let cnt := (((var.zip dirs).filterMap (fun p =>
                  (cutBin vbins p.1).map
                    (fun vb => (vb, map_direction_bin p.2 arr (arr.length - 1))))).filter
                    (fun r => r.1 = vi + 1 ∧ r.2 = sj + 1)).length
                if pct then (cnt : ℚ) / ((((var.zip dirs).filterMap (fun p =>
                  (cutBin vbins p.1).map
                    (fun vb => (vb, map_direction_bin p.2 arr (arr.length - 1))))).length : ℕ) : ℚ) * 100
                else (cnt : ℚ))))) = some (labels, matrix) := h
    cases hl : _get_direction_bin_labels (arr.length - 1) arr false with
    | none =>
      rw [hl] at h'
      simp at h'
    | some ls =>
      rw [hl] at h'
      simp only [Option.some.injEq, Prod.mk.injEq] at h'
      rw [h'.1]

/-- C7 witness: a five-edge custom array `[0,90,180,270,360]`; the redefined
sector count is 4 and the labels are the plain adjacent-edge ones. -/
theorem C7_custom_bin_array_redefines_sectors_witness :
    _get_direction_bin_labels (([0, 90, 180, 270, 360] : List ℚ).length - 1)
        [0, 90, 180, 270, 360] false =
      some [(0, 90), (90, 180), (180, 270), (270, 360)] ∧
    aggregateBySector
      (([5] : List ℚ).zip (([45] : List ℚ).map
        (fun d => map_direction_bin d [0, 90, 180, 270, 360]
          (([0, 90, 180, 270, 360] : List ℚ).length - 1))))
      (([0, 90, 180, 270, 360] : List ℚ).length - 1) AggMethod.freqPercent =
    aggregateBySector
      (([5] : List ℚ).zip (([45] : List ℚ).map
        (fun d => map_direction_bin d [0, 90, 180, 270, 360]
          (([0, 90, 180, 270, 360] : List ℚ).length - 1))))
      (([0, 90, 180, 270, 360] : List ℚ).length - 1) AggMethod.freqPercent :=
  (C7_custom_bin_array_redefines_sectors [5] [45] 12 7 AggMethod.freqPercent
      [0, 90, 180, 270, 360] none [] true).2.2.1
    [(0, 90), (90, 180), (180, 270), (270, 360)]
    (aggregateBySector
      (([5] : List ℚ).zip (([45] : List ℚ).map
        (fun d => map_direction_bin d [0, 90, 180, 270, 360]
          (([0, 90, 180, 270, 360] : List ℚ).length - 1))))
      (([0, 90, 180, 270, 360] : List ℚ).length - 1) AggMethod.freqPercent) rfl

-- ### time continuity gaps

/-- Adjacent pairs `(indexes[:-1][k], indexes[1:][k])` of a timestamp index —
the `Date From`/`Date To` columns of the `continuity` frame. -/
def adjacentPairs : List ℚ → List (ℚ × ℚ)
  | a :: b :: rest => (a, b) :: adjacentPairs (b :: rest)
  | _ => []

/-- The `Days Lost` column: elapsed time of each adjacent pair, in days
(timestamps are modelled in days, so `(To - From) / Timedelta('1 days')`
is just the difference). -/
def diffsList (ts : List ℚ) : List ℚ :=
  (adjacentPairs ts).map (fun p => p.2 - p.1)

/-- Minimum of a list (`0` for `[]`, a case no claim touches). -/
def listMin : List ℚ → ℚ
  | [] => 0
  | d :: ds => ds.foldl min d

/-- Modelled from the spec: `tf._get_data_resolution(indexes)` lives in the
`transform` module, which is not under `src/`; the spec only says
`infer_resolution(timestamp_index) -> duration` infers the data's native
resolution.  It is modelled as the minimum adjacent-timestamp difference
(for the claims checked here only the value on regular-with-gaps series
matters, where any reasonable inference — minimum or mode — gives the
regular step). -/
def data_resolution (ts : List ℚ) : ℚ := listMin (diffsList ts)

/-- Embeds `get_time_continuity_gaps(data)` from `analyse.py`: rows
`(Date From, Date To, Days Lost)` of the continuity frame whose `Days Lost`
differs from the inferred resolution (in days). -/
def get_time_continuity_gaps (ts : List ℚ) : List (ℚ × ℚ × ℚ) :=
  (adjacentPairs ts).filterMap (fun p =>
    if p.2 - p.1 ≠ data_resolution ts then some (p.1, p.2, p.2 - p.1) else none)

/-- An otherwise-regular hourly stamp sequence (times in days) with one full
day missing after hour `a`: hours `0..a`, then hours `a+25, …` (`b` stamps),
i.e. the 24 hourly stamps `a+1..a+24` are absent. -/
def hourlyStamp (a : ℕ) (i : ℕ) : ℚ :=
  if i ≤ a then (i : ℚ) / 24 else ((i : ℚ) + 24) / 24

/-- The hourly series with one missing day, as a list of timestamps. -/
def hourlyWithMissingDay (a b : ℕ) : List ℚ :=
  (List.range (a + 1 + b)).map (hourlyStamp a)

lemma adjacentPairs_map_range (n : ℕ) : ∀ f : ℕ → ℚ,
    adjacentPairs ((List.range (n + 1)).map f) =
      (List.range n).map (fun i => (f i, f (i + 1))) := by
  induction n with
  | zero => intro f; rfl
  | succ n ih =>
    intro f
    have h1 : ((List.range (n + 2)).map f) =
        f 0 :: (List.range (n + 1)).map (fun i => f (i + 1)) := by
      rw [List.range_succ_eq_map, List.map_cons, List.map_map]
      rfl
    have h2 : ((List.range (n + 1)).map (fun i => f (i + 1))) =
        f 1 :: (List.range n).map (fun i => f (i + 2)) := by
      rw [List.range_succ_eq_map, List.map_cons, List.map_map]
      rfl
    have h3 : ((List.range (n + 1)).map (fun i => (f i, f (i + 1)))) =
        (f 0, f 1) :: (List.range n).map (fun i => (f (i + 1), f (i + 2))) := by
      rw [List.range_succ_eq_map, List.map_cons, List.map_map]
      rfl
    calc adjacentPairs ((List.range (n + 2)).map f)
        = adjacentPairs (f 0 :: (f 1 :: (List.range n).map (fun i => f (i + 2)))) := by
          rw [h1, h2]
      _ = (f 0, f 1) :: adjacentPairs (f 1 :: (List.range n).map (fun i => f (i + 2))) := rfl
      _ = (f 0, f 1) :: adjacentPairs ((List.range (n + 1)).map (fun i => f (i + 1))) := by
          rw [h2]
      _ = (f 0, f 1) :: (List.range n).map (fun i => (f (i + 1), f (i + 2))) := by
          rw [ih (fun i => f (i + 1))]
      _ = (List.range (n + 1)).map (fun i => (f i, f (i + 1))) := h3.symm

lemma hourlyStamp_diff (a i : ℕ) :
    hourlyStamp a (i + 1) - hourlyStamp a i =
      if i = a then (25 : ℚ) / 24 else (1 : ℚ) / 24 := by
  unfold hourlyStamp
  by_cases h1 : i + 1 ≤ a
  · rw [if_pos h1, if_pos (by omega : i ≤ a), if_neg (by omega : ¬ i = a)]
    push_cast
    ring
  · by_cases h2 : i ≤ a
    · rw [if_neg h1, if_pos h2, if_pos (by omega : i = a)]
      push_cast
      ring
    · rw [if_neg h1, if_neg h2, if_neg (by omega : ¬ i = a)]
      push_cast
      ring

lemma foldl_min_le_init (l : List ℚ) : ∀ a : ℚ, l.foldl min a ≤ a := by
  induction l with
  | nil => intro a; simp
  | cons x xs ih =>
    intro a
    calc xs.foldl min (min a x) ≤ min a x := ih (min a x)
    _ ≤ a := min_le_left a x

lemma foldl_min_le_mem (l : List ℚ) : ∀ a x : ℚ, x ∈ l → l.foldl min a ≤ x := by
  induction l with
  | nil => intro a x hx; simp at hx
  | cons y ys ih =>
    intro a x hx
    rcases List.mem_cons.mp hx with h | h
    · subst h
      calc ys.foldl min (min a x) ≤ min a x := foldl_min_le_init ys (min a x)
      _ ≤ x := min_le_right a x
    · exact ih (min a y) x h

lemma foldl_min_mem_or_init (l : List ℚ) :
    ∀ a : ℚ, l.foldl min a = a ∨ l.foldl min a ∈ l := by
  induction l with
  | nil => intro a; left; rfl
  | cons y ys ih =>
    intro a
    rcases ih (min a y) with h | h
    · rcases min_choice a y with hm | hm
      · left
        simpa [hm] using h
      · right
        rw [List.foldl_cons, h, hm]
        exact List.mem_cons_self y ys
    · right
      exact List.mem_cons_of_mem y h

lemma listMin_spec (l : List ℚ) (h : l ≠ []) :
    listMin l ∈ l ∧ ∀ x ∈ l, listMin l ≤ x := by
  match l with
  | [] => exact absurd rfl h
  | d :: ds =>
    constructor
    · rcases foldl_min_mem_or_init ds d with h' | h'
      · rw [listMin, h']
        exact List.mem_cons_self d ds
      · exact List.mem_cons_of_mem d h'
    · intro x hx
      rcases List.mem_cons.mp hx with hx | hx
      · subst hx
        exact foldl_min_le_init ds x
      · exact foldl_min_le_mem ds d x hx

lemma diffsList_hourly (a b : ℕ) :
    diffsList (hourlyWithMissingDay a b) =
      (List.range (a + b)).map (fun i => if i = a then (25 : ℚ) / 24 else (1 : ℚ) / 24) := by
  unfold diffsList hourlyWithMissingDay
  have hr : a + 1 + b = (a + b) + 1 := by omega
  rw [hr, adjacentPairs_map_range (a + b) (hourlyStamp a), List.map_map]
  exact List.map_congr_left fun i _ => hourlyStamp_diff a i

lemma data_resolution_hourly (a b : ℕ) (ha : 1 ≤ a) (hb : 1 ≤ b) :
    data_resolution (hourlyWithMissingDay a b) = 1 / 24 := by
  unfold data_resolution
  rw [diffsList_hourly]
  have hne : ((List.range (a + b)).map
      (fun i => if i = a then (25 : ℚ) / 24 else (1 : ℚ) / 24)) ≠ [] := by
    simp only [ne_eq, List.map_eq_nil_iff, List.range_eq_nil]
    omega
  obtain ⟨hmem, hle⟩ := listMin_spec _ hne
  have hval : ∀ x ∈ (List.range (a + b)).map
      (fun i => if i = a then (25 : ℚ) / 24 else (1 : ℚ) / 24),
      x = 25 / 24 ∨ x = 1 / 24 := by
    intro x hx
    simp only [List.mem_map, List.mem_range] at hx
    obtain ⟨i, _, rfl⟩ := hx
    split
    · left; rfl
    · right; rfl
  have h124 : (1 : ℚ) / 24 ∈ (List.range (a + b)).map
      (fun i => if i = a then (25 : ℚ) / 24 else (1 : ℚ) / 24) := by
    refine List.mem_map.mpr ⟨0, List.mem_range.mpr (by omega), ?_⟩
    rw [if_neg (by omega)]
  have hlem := hle _ h124
  rcases hval _ hmem with h | h
  · exfalso
    rw [h] at hlem
    norm_num at hlem
  · exact h

lemma filterMap_range_singleton {β : Type} (g : ℕ → Option β) (a c : ℕ) (v : β)
    (hga : g a = some v) (hother : ∀ i, i ≠ a → g i = none) :
    List.filterMap g (List.range (a + (c + 1))) = [v] := by
  rw [List.range_add, List.filterMap_append]
  have hleft : List.filterMap g (List.range a) = [] :=
    List.filterMap_eq_nil_iff.mpr
      (fun i hi => hother i (by rw [List.mem_range] at hi; omega))
  have hright : List.filterMap g ((List.range (c + 1)).map (fun x => a + x)) = [v] := by
    rw [List.filterMap_map, List.range_succ_eq_map, List.filterMap_cons]
    have h0 : (g ∘ fun x => a + x) 0 = some v := by
      show g (a + 0) = some v
      simpa using hga
    rw [h0]
    have hrest : List.filterMap (g ∘ fun x => a + x) ((List.range c).map Nat.succ) = [] :=
      List.filterMap_eq_nil_iff.mpr (fun i hi => by
        simp only [List.mem_map, List.mem_range] at hi
        obtain ⟨j, _, rfl⟩ := hi
        exact hother (a + j.succ) (by omega))
    rw [hrest]
  rw [hleft, hright]
  rfl

lemma gaps_hourly (a b : ℕ) (ha : 1 ≤ a) (hb : 1 ≤ b) :
    get_time_continuity_gaps (hourlyWithMissingDay a b) =
      [((a : ℚ) / 24, ((a : ℚ) + 25) / 24, (25 : ℚ) / 24)] := by
  unfold get_time_continuity_gaps
  rw [data_resolution_hourly a b ha hb]
  unfold hourlyWithMissingDay
  have hr : a + 1 + b = (a + b) + 1 := by omega
  rw [hr, adjacentPairs_map_range (a + b) (hourlyStamp a), List.filterMap_map]
  obtain ⟨c, rfl⟩ : ∃ c, b = c + 1 := ⟨b - 1, by omega⟩
  apply filterMap_range_singleton _ a c
  · show (if hourlyStamp a (a + 1) - hourlyStamp a a ≠ (1 : ℚ) / 24
      then some (hourlyStamp a a, hourlyStamp a (a + 1),
        hourlyStamp a (a + 1) - hourlyStamp a a)
      else none) = some ((a : ℚ) / 24, ((a : ℚ) + 25) / 24, (25 : ℚ) / 24)
    have hd := hourlyStamp_diff a a
    rw [if_pos rfl] at hd
    rw [hd, if_pos (by norm_num)]
    have e1 : hourlyStamp a a = (a : ℚ) / 24 := by
      unfold hourlyStamp
      rw [if_pos le_rfl]
    have e2 : hourlyStamp a (a + 1) = ((a : ℚ) + 25) / 24 := by
      unfold hourlyStamp
      rw [if_neg (by omega)]
      push_cast
      ring
    rw [e1, e2]
  · intro i hia
    show (if hourlyStamp a (i + 1) - hourlyStamp a i ≠ (1 : ℚ) / 24
      then some (hourlyStamp a i, hourlyStamp a (i + 1),
        hourlyStamp a (i + 1) - hourlyStamp a i)
      else none) = none
    have hd := hourlyStamp_diff a i
    rw [if_neg hia] at hd
    rw [hd]
    simp

/-- C6: `get_time_continuity_gaps` reports exactly the adjacent-timestamp
pairs whose elapsed time differs from the inferred native resolution, as rows
(Date From, Date To, Days Lost); and on an otherwise-regular hourly series
with exactly one missing day it reports exactly one gap row, whose Days Lost
(25/24 of a day) exceeds the 1-hour fraction 1/24. -/
theorem C6_time_continuity_gaps :
    (∀ (ts : List ℚ) (x y l : ℚ),
      (x, y, l) ∈ get_time_continuity_gaps ts ↔
        ((x, y) ∈ adjacentPairs ts ∧ l = y - x ∧ y - x ≠ data_resolution ts)) ∧
    (∀ a b : ℕ, 1 ≤ a → 1 ≤ b →
      get_time_continuity_gaps (hourlyWithMissingDay a b) =
        [((a : ℚ) / 24, ((a : ℚ) + 25) / 24, (25 : ℚ) / 24)] ∧
      (1 : ℚ) / 24 < (25 : ℚ) / 24) := by
  constructor
  · intro ts x y l
    unfold get_time_continuity_gaps
    rw [List.mem_filterMap]
    constructor
    · rintro ⟨⟨px, py⟩, hp, heq⟩
      split at heq
      · simp only [Option.some.injEq, Prod.mk.injEq] at heq
        obtain ⟨hx, hy, hl⟩ := heq
        subst hx
        subst hy
        refine ⟨hp, hl.symm, ?_⟩
        assumption
      · simp at heq
    · rintro ⟨hmem, hl, hne⟩
      refine ⟨(x, y), hmem, ?_⟩
      show (if y - x ≠ data_resolution ts then some (x, y, y - x) else none) = some (x, y, l)
      rw [if_pos hne, hl]
  · intro a b ha hb
    exact ⟨gaps_hourly a b ha hb, by norm_num⟩

/-- C6 witness: the hourly series with one missing day after hour 1 and one
trailing stamp; the single reported row and the strict Days Lost bound. -/
theorem C6_time_continuity_gaps_witness :
    get_time_continuity_gaps (hourlyWithMissingDay 1 1) =
      [(((1 : ℕ) : ℚ) / 24, (((1 : ℕ) : ℚ) + 25) / 24, (25 : ℚ) / 24)] ∧
    (1 : ℚ) / 24 < (25 : ℚ) / 24 :=
  C6_time_continuity_gaps.2 1 1 le_rfl le_rfl

-- ### mean of monthly means and the long-term reference speed

/-- A timestamp at day granularity (`YYYY-MM-DD`), as produced by
`datetime.date`/`datetime.datetime` and by the index of the input frame. -/
structure Date where
  y : ℕ
  m : ℕ
  d : ℕ
deriving DecidableEq

/-- A pandas DataFrame with a timestamp index: column names plus rows of
(timestamp, per-column value).  Values are total (`NaN`-free) — none of the
verified claims concerns missing input cells. -/
structure DFrame where
  cols : List String
  rows : List (Date × (String → ℚ))

/-- The values of column `c` falling in calendar month `m`
(one group of `df.groupby(df.index.month)`). -/
def monthValues (rows : List (Date × (String → ℚ))) (c : String) (m : ℕ) : List ℚ :=
  (rows.filter (fun r => decide (r.1.m = m))).map (fun r => r.2 c)

/-- Embeds `Series.mean` over a nonempty list (`sum/len`; the `len = 0` case is
handled separately as `NaN` where it can occur). -/
def listMean (l : List ℚ) : ℚ := l.sum / (l.length : ℚ)

/-- The distinct calendar months occurring in the index, ascending — the
group keys of `df.groupby(df.index.month)` (calendar months lie in 1..12,
so enumerating `0..12` and keeping the occurring ones reproduces the sorted
distinct keys). -/
def monthsPresent (rows : List (Date × (String → ℚ))) : List ℕ :=
  (List.range 13).filter (fun m => rows.any (fun r => decide (r.1.m = m)))

/-- The `momm_series` entry for column `c`: the monthly means of `c`
averaged over the months present; `NaN` (`none`) when there are no rows at
all (mean of an empty frame). -/
def momm_value (rows : List (Date × (String → ℚ))) (c : String) : Option ℚ :=
  if monthsPresent rows = [] then none
  else some (listMean ((monthsPresent rows).map (fun m => listMean (monthValues rows c m))))

/-- Embeds `mean_of_monthly_means(df)` from `analyse.py`, observed at the single
cell the callers read.  The source builds
`pd.DataFrame([momm_series], columns=['MOMM'])`: the list-of-Series
constructor treats `columns` as a *selection*, so the one retained column is
the `momm_series` entry keyed `'MOMM'` — the momm value of an input column
literally named `MOMM` if there is one, and `NaN` otherwise. -/
def mean_of_monthly_means (df : DFrame) : Option ℚ :=
  if df.cols.contains "MOMM" then momm_value df.rows "MOMM" else none

/-- Replacing each of month `m`'s rows by `N` copies of itself (`N ≥ 1`
duplicates the month's rows `N` times, other months untouched). -/
def duplicateMonth (rows : List (Date × (String → ℚ))) (m N : ℕ) :
    List (Date × (String → ℚ)) :=
  rows.flatMap (fun r => if r.1.m = m then List.replicate N r else [r])

/-- The `date_from`/`date_to` argument of `calc_lt_ref_speed`: the default
`''`, a `datetime.date`/`datetime.datetime`, or a string (held as its
character list). -/
inductive DateArg : Type where
  | emptyStr : DateArg
  | dateLike (d : Date) : DateArg
  | strArg (s : List Char) : DateArg

/-- Python truthiness of a `DateArg`: `''` is falsy, date objects are always
truthy, a string is truthy when nonempty. -/
def DateArg.truthy : DateArg → Bool
  | .emptyStr => false
  | .dateLike _ => true
  | .strArg s => !s.isEmpty

/-- A decimal digit of a character, `none` for a non-digit. -/
def charDigit (c : Char) : Option ℕ :=
  if c.isDigit then some (c.toNat - 48) else none

/-- Embeds `datetime.strptime(s[:10], "%Y-%m-%d")`: the first 10 characters must be
four digits, `-`, two digits, `-`, two digits; `none` models the ValueError
raised otherwise. -/
def parseDate10 (s : List Char) : Option Date :=
  match s.take 10 with
  | [y1, y2, y3, y4, h1, m1, m2, h2, d1, d2] =>
    if h1 = '-' ∧ h2 = '-' then
      match charDigit y1, charDigit y2, charDigit y3, charDigit y4,
          charDigit m1, charDigit m2, charDigit d1, charDigit d2 with
      | some q1, some q2, some q3, some q4, some q5, some q6, some q7, some q8 =>
        some ⟨((q1 * 10 + q2) * 10 + q3) * 10 + q4, q5 * 10 + q6, q7 * 10 + q8⟩
      | _, _, _, _, _, _, _, _ => none
    else none
  | _ => none

/-- Embeds `arg[:10]` followed by `strptime`: slicing a non-string raises TypeError
(`none`); a string is parsed by `parseDate10`. -/
def sliceParse : DateArg → Option Date
  | .strArg s => parseDate10 s
  | _ => none

/-- Chronological order on day-granularity timestamps. -/
def Date.le (x z : Date) : Bool :=
  decide (x.y < z.y) || (decide (x.y = z.y) &&
    (decide (x.m < z.m) || (decide (x.m = z.m) && decide (x.d ≤ z.d))))

/-- Embeds `data.loc[date_from:date_to, :]` on a sorted timestamp index: the rows
with `date_from ≤ t ≤ date_to` (label slicing is inclusive at both ends). -/
def filterRange (df : DFrame) (a b : Date) : DFrame :=
  ⟨df.cols, df.rows.filter (fun r => Date.le a r.1 && Date.le r.1 b)⟩

/-- Embeds `calc_lt_ref_speed(data, date_from, date_to)` from `analyse.py`:
if both arguments are date-like, slice and take the mean of monthly means;
otherwise, if both are truthy, parse both via `[:10]`+`strptime` (raising —
`Except.error` — on a non-string or unparsable string) and slice; otherwise
no filtering at all.  The returned scalar is
`mean_of_monthly_means(...).get_value(index=0, col='MOMM')`. -/
def calc_lt_ref_speed (df : DFrame) (date_from date_to : DateArg) :
    Except String (Option ℚ) :=
  match date_from, date_to with
  | .dateLike a, .dateLike b => .ok (mean_of_monthly_means (filterRange df a b))
  | f, t =>
    if f.truthy && t.truthy then
      match sliceParse f, sliceParse t with
      | some a, some b => .ok (mean_of_monthly_means (filterRange df a b))
      | _, _ => .error "ValueError"
    else .ok (mean_of_monthly_means df)

lemma duplicateMonth_cons (r : Date × (String → ℚ))
    (rs : List (Date × (String → ℚ))) (m N : ℕ) :
    duplicateMonth (r :: rs) m N =
      (if r.1.m = m then List.replicate N r else [r]) ++ duplicateMonth rs m N := by
  simp [duplicateMonth]

lemma monthValues_duplicateMonth (c : String) (m m' N : ℕ) (_hN : 0 < N)
    (rows : List (Date × (String → ℚ))) :
    monthValues (duplicateMonth rows m N) c m' =
      if m' = m then (monthValues rows c m').flatMap (List.replicate N)
      else monthValues rows c m' := by
  induction rows with
  | nil =>
    by_cases h : m' = m <;> simp [duplicateMonth, monthValues, h]
  | cons r rs ih =>
    rw [duplicateMonth_cons]
    unfold monthValues at *
    rw [List.filter_append, List.map_append, ih]
    by_cases hmm : m' = m
    · subst hmm
      rw [if_pos rfl, if_pos rfl]
      by_cases hr : r.1.m = m'
      · rw [if_pos hr, List.filter_cons_of_pos (by simpa using hr),
          List.filter_replicate, if_pos (by simpa using hr)]
        simp [List.map_replicate]
      · rw [if_neg hr, List.filter_cons_of_neg (by simpa using hr),
          List.filter_cons_of_neg (by simpa using hr)]
        simp
    · rw [if_neg hmm, if_neg hmm]
      by_cases hr : r.1.m = m'
      · have hrm : ¬ r.1.m = m := by
          rw [hr]
          exact hmm
        rw [if_neg hrm, List.filter_cons_of_pos (by simpa using hr),
          List.filter_cons_of_pos (by simpa using hr)]
        simp
      · by_cases hrm : r.1.m = m
        · rw [if_pos hrm, List.filter_cons_of_neg (by simpa using hr),
            List.filter_replicate, if_neg (by simpa using hr)]
          simp
        · rw [if_neg hrm, List.filter_cons_of_neg (by simpa using hr),
            List.filter_cons_of_neg (by simpa using hr)]
          simp

lemma any_replicate_pos {α : Type} (N : ℕ) (hN : 0 < N) (x : α) (q : α → Bool) :
    (List.replicate N x).any q = q x := by
  obtain ⟨k, rfl⟩ : ∃ k, N = k + 1 := ⟨N - 1, by omega⟩
  induction k with
  | zero => simp
  | succ k ih =>
    rw [List.replicate_succ, List.any_cons, ih (by omega)]
    cases q x <;> simp

lemma monthsPresent_duplicateMonth (rows : List (Date × (String → ℚ)))
    (m N : ℕ) (hN : 0 < N) :
    monthsPresent (duplicateMonth rows m N) = monthsPresent rows := by
  unfold monthsPresent
  apply List.filter_congr
  intro m' _
  induction rows with
  | nil => rfl
  | cons r rs ih =>
    rw [duplicateMonth_cons, List.any_append, List.any_cons, ih]
    by_cases hr : r.1.m = m
    · rw [if_pos hr, any_replicate_pos N hN]
    · rw [if_neg hr, List.any_cons]
      simp

lemma sum_flatMap_replicate (N : ℕ) (l : List ℚ) :
    (l.flatMap (List.replicate N)).sum = (N : ℚ) * l.sum := by
  induction l with
  | nil => simp
  | cons x xs ih =>
    rw [List.flatMap_cons, List.sum_append, ih, List.sum_cons,
      List.sum_replicate, nsmul_eq_mul]
    ring

lemma length_flatMap_replicate {α : Type} (N : ℕ) (l : List α) :
    (l.flatMap (List.replicate N)).length = N * l.length := by
  induction l with
  | nil => simp
  | cons x xs ih =>
    rw [List.flatMap_cons, List.length_append, ih, List.length_cons,
      List.length_replicate]
    ring

lemma listMean_flatMap_replicate (N : ℕ) (hN : 0 < N) (l : List ℚ) :
    listMean (l.flatMap (List.replicate N)) = listMean l := by
  have hsum := sum_flatMap_replicate N l
  have hlen := length_flatMap_replicate N l
  unfold listMean
  rw [hsum, hlen]
  rcases Nat.eq_zero_or_pos l.length with h0 | hpos
  · rw [h0]
    simp
  · have hN' : ((N : ℚ)) ≠ 0 := Nat.cast_ne_zero.mpr (by omega)
    push_cast
    rw [mul_div_mul_left _ _ hN']

lemma momm_value_duplicateMonth (rows : List (Date × (String → ℚ)))
    (m N : ℕ) (hN : 0 < N) (c : String) :
    momm_value (duplicateMonth rows m N) c = momm_value rows c := by
  unfold momm_value
  rw [monthsPresent_duplicateMonth rows m N hN]
  split
  · rfl
  · congr 2
    apply List.map_congr_left
    intro m' _
    rw [monthValues_duplicateMonth c m m' N hN rows]
    by_cases h : m' = m
    · rw [if_pos h]
      exact listMean_flatMap_replicate N hN _
    · rw [if_neg h]

/-- C4: `mean_of_monthly_means` weights each calendar month equally —
replicating all of month `m`'s rows `N ≥ 1` times changes neither any
column's momm value nor the returned frame's cell. -/
theorem C4_momm_month_duplication (cols : List String)
    (rows : List (Date × (String → ℚ))) (m N : ℕ) (hN : 0 < N) :
    (∀ c, momm_value (duplicateMonth rows m N) c = momm_value rows c) ∧
    mean_of_monthly_means ⟨cols, duplicateMonth rows m N⟩ =
      mean_of_monthly_means ⟨cols, rows⟩ := by
  refine ⟨fun c => momm_value_duplicateMonth rows m N hN c, ?_⟩
  unfold mean_of_monthly_means
  exact if_congr Iff.rfl (momm_value_duplicateMonth rows m N hN "MOMM") rfl

/-- C4 witness: two rows (January and June 2020), January's row triplicated. -/
theorem C4_momm_month_duplication_witness :
    (∀ c, momm_value (duplicateMonth
        [(⟨2020, 1, 1⟩, fun _ => 5), (⟨2020, 6, 1⟩, fun _ => 7)] 1 3) c =
      momm_value [(⟨2020, 1, 1⟩, fun _ => 5), (⟨2020, 6, 1⟩, fun _ => 7)] c) ∧
    mean_of_monthly_means ⟨["Spd"], duplicateMonth
        [(⟨2020, 1, 1⟩, fun _ => 5), (⟨2020, 6, 1⟩, fun _ => 7)] 1 3⟩ =
      mean_of_monthly_means ⟨["Spd"],
        [(⟨2020, 1, 1⟩, fun _ => 5), (⟨2020, 6, 1⟩, fun _ => 7)]⟩ :=
  C4_momm_month_duplication ["Spd"]
    [(⟨2020, 1, 1⟩, fun _ => 5), (⟨2020, 6, 1⟩, fun _ => 7)] 1 3 (by norm_num)

/-- C9: when the input frame has no column literally named `MOMM`, the
column selection in `pd.DataFrame([momm_series], columns=['MOMM'])` matches
nothing, so the returned cell is `NaN` — and `calc_lt_ref_speed`
consequently returns `NaN` instead of a long-term mean speed. -/
theorem C9_no_momm_column_gives_nan (df : DFrame)
    (h : df.cols.contains "MOMM" = false) :
    mean_of_monthly_means df = none ∧
    calc_lt_ref_speed df .emptyStr .emptyStr = .ok none ∧
    ∀ a b : Date, calc_lt_ref_speed df (.dateLike a) (.dateLike b) = .ok none := by
  have h' : ¬ ("MOMM" ∈ df.cols) := by simpa using h
  have h1 : mean_of_monthly_means df = none := by
    simp [mean_of_monthly_means, h']
  refine ⟨h1, ?_, ?_⟩
  · show Except.ok (mean_of_monthly_means df) = Except.ok none
    rw [h1]
  · intro a b
    show Except.ok (mean_of_monthly_means (filterRange df a b)) = Except.ok none
    have h2 : mean_of_monthly_means (filterRange df a b) = none := by
      simp [mean_of_monthly_means, filterRange, h']
    rw [h2]

/-- C9 witness: a frame with the single (realistically named) column
`Spd80mN`. -/
theorem C9_no_momm_column_gives_nan_witness :
    mean_of_monthly_means ⟨["Spd80mN"], [(⟨2020, 1, 1⟩, fun _ => 5)]⟩ = none ∧
    calc_lt_ref_speed ⟨["Spd80mN"], [(⟨2020, 1, 1⟩, fun _ => 5)]⟩
      .emptyStr .emptyStr = .ok none ∧
    ∀ a b : Date, calc_lt_ref_speed ⟨["Spd80mN"], [(⟨2020, 1, 1⟩, fun _ => 5)]⟩
      (.dateLike a) (.dateLike b) = .ok none :=
  C9_no_momm_column_gives_nan ⟨["Spd80mN"], [(⟨2020, 1, 1⟩, fun _ => 5)]⟩ (by decide)

/-- C5 (amended): with both bounds given — date-likes, or strings whose
first 10 characters parse as `YYYY-MM-DD` — the data is sliced to
`[date_from, date_to]` and the mean of monthly means is taken; but on a
range containing no rows the function returns `NaN` (a missing value)
instead of raising. -/
theorem C5_calc_lt_ref_speed_range_filter (df : DFrame) (a b : Date)
    (s t : List Char) (hs : parseDate10 s = some a) (ht : parseDate10 t = some b)
    (hns : s ≠ []) (hnt : t ≠ []) :
    calc_lt_ref_speed df (.dateLike a) (.dateLike b) =
      .ok (mean_of_monthly_means (filterRange df a b)) ∧
    calc_lt_ref_speed df (.strArg s) (.strArg t) =
      .ok (mean_of_monthly_means (filterRange df a b)) ∧
    ((filterRange df a b).rows = [] →
      calc_lt_ref_speed df (.dateLike a) (.dateLike b) = .ok none ∧
      calc_lt_ref_speed df (.strArg s) (.strArg t) = .ok none) := by
  have hd : calc_lt_ref_speed df (.dateLike a) (.dateLike b) =
      .ok (mean_of_monthly_means (filterRange df a b)) := rfl
  have hcond : (!s.isEmpty && !t.isEmpty) = true := by
    simp [List.isEmpty_iff, hns, hnt]
  have hstr : calc_lt_ref_speed df (.strArg s) (.strArg t) =
      .ok (mean_of_monthly_means (filterRange df a b)) := by
    show (if (!s.isEmpty && !t.isEmpty) = true then
        match parseDate10 s, parseDate10 t with
        | some a, some b => Except.ok (mean_of_monthly_means (filterRange df a b))
        | _, _ => Except.error "ValueError"
      else Except.ok (mean_of_monthly_means df)) =
      Except.ok (mean_of_monthly_means (filterRange df a b))
    rw [if_pos hcond, hs, ht]
  refine ⟨hd, hstr, fun hempty => ?_⟩
  have hnone : mean_of_monthly_means (filterRange df a b) = none := by
    unfold mean_of_monthly_means
    split
    · rw [hempty]
      rfl
    · rfl
  exact ⟨by rw [hd, hnone], by rw [hstr, hnone]⟩

/-- C5 witness: a one-row January-2020 frame (with a `MOMM` column, so the
unfiltered momm value would be an actual number) and the 2021 range given
both as date-likes and as the strings `"2021-01-01"`/`"2021-12-31"`. -/
theorem C5_calc_lt_ref_speed_range_filter_witness :
    calc_lt_ref_speed ⟨["MOMM"], [(⟨2020, 1, 15⟩, fun _ => 5)]⟩
      (.dateLike ⟨2021, 1, 1⟩) (.dateLike ⟨2021, 12, 31⟩) =
      .ok (mean_of_monthly_means (filterRange
        ⟨["MOMM"], [(⟨2020, 1, 15⟩, fun _ => 5)]⟩ ⟨2021, 1, 1⟩ ⟨2021, 12, 31⟩)) ∧
    calc_lt_ref_speed ⟨["MOMM"], [(⟨2020, 1, 15⟩, fun _ => 5)]⟩
      (.strArg "2021-01-01".toList) (.strArg "2021-12-31".toList) =
      .ok (mean_of_monthly_means (filterRange
        ⟨["MOMM"], [(⟨2020, 1, 15⟩, fun _ => 5)]⟩ ⟨2021, 1, 1⟩ ⟨2021, 12, 31⟩)) ∧
    ((filterRange ⟨["MOMM"], [(⟨2020, 1, 15⟩, fun _ => 5)]⟩
        ⟨2021, 1, 1⟩ ⟨2021, 12, 31⟩).rows = [] →
      calc_lt_ref_speed ⟨["MOMM"], [(⟨2020, 1, 15⟩, fun _ => 5)]⟩
        (.dateLike ⟨2021, 1, 1⟩) (.dateLike ⟨2021, 12, 31⟩) = .ok none ∧
      calc_lt_ref_speed ⟨["MOMM"], [(⟨2020, 1, 15⟩, fun _ => 5)]⟩
        (.strArg "2021-01-01".toList) (.strArg "2021-12-31".toList) = .ok none) :=
  C5_calc_lt_ref_speed_range_filter ⟨["MOMM"], [(⟨2020, 1, 15⟩, fun _ => 5)]⟩
    ⟨2021, 1, 1⟩ ⟨2021, 12, 31⟩ "2021-01-01".toList "2021-12-31".toList
    (by decide) (by decide) (by decide) (by decide)

/-- C5 counterexample: a requested range (the year 2021) containing no rows
of the January-2020 frame makes `calc_lt_ref_speed` return the value
`NaN` (`Except.ok none`) — it does not fail/raise as the claim states. -/
theorem C5_empty_range_returns_nan_counterexample :
    (filterRange ⟨["MOMM"], [(⟨2020, 1, 15⟩, fun _ => 5)]⟩
      ⟨2021, 1, 1⟩ ⟨2021, 12, 31⟩).rows.isEmpty = true ∧
    calc_lt_ref_speed ⟨["MOMM"], [(⟨2020, 1, 15⟩, fun _ => 5)]⟩
      (.dateLike ⟨2021, 1, 1⟩) (.dateLike ⟨2021, 12, 31⟩) = .ok none := by
  constructor
  · rfl
  · rfl

/-- C10: supplying only one of the two date bounds (the other left at the
default `''`) disables filtering entirely: the elif needs both arguments
truthy, so the result equals the call with no date arguments at all. -/
theorem C10_single_bound_is_ignored (df : DFrame) (s : List Char) (_h : s ≠ []) :
    calc_lt_ref_speed df (.strArg s) .emptyStr =
      calc_lt_ref_speed df .emptyStr .emptyStr ∧
    calc_lt_ref_speed df .emptyStr (.strArg s) =
      calc_lt_ref_speed df .emptyStr .emptyStr := by
  constructor
  · have hc : ((DateArg.strArg s).truthy && DateArg.truthy .emptyStr) = false := by
      simp [DateArg.truthy]
    show (if ((DateArg.strArg s).truthy && DateArg.truthy .emptyStr) = true then
        match sliceParse (.strArg s), sliceParse .emptyStr with
        | some a, some b => Except.ok (mean_of_monthly_means (filterRange df a b))
        | _, _ => Except.error "ValueError"
      else Except.ok (mean_of_monthly_means df)) =
      calc_lt_ref_speed df .emptyStr .emptyStr
    rw [hc, if_neg Bool.false_ne_true]
    rfl
  · rfl

/-- C10 witness: the one-sided call with the string `"2020-01-01"`. -/
theorem C10_single_bound_is_ignored_witness :
    calc_lt_ref_speed ⟨["MOMM"], [(⟨2020, 1, 15⟩, fun _ => 6)]⟩
      (.strArg "2020-01-01".toList) .emptyStr =
      calc_lt_ref_speed ⟨["MOMM"], [(⟨2020, 1, 15⟩, fun _ => 6)]⟩
        .emptyStr .emptyStr ∧
    calc_lt_ref_speed ⟨["MOMM"], [(⟨2020, 1, 15⟩, fun _ => 6)]⟩
      .emptyStr (.strArg "2020-01-01".toList) =
      calc_lt_ref_speed ⟨["MOMM"], [(⟨2020, 1, 15⟩, fun _ => 6)]⟩
        .emptyStr .emptyStr :=
  C10_single_bound_is_ignored ⟨["MOMM"], [(⟨2020, 1, 15⟩, fun _ => 6)]⟩
    "2020-01-01".toList (by decide)
